import Mathlib

/-!
Shallow embedding of the vue-code-parser `useCodeParser` composable.
The repository contains two variants of the tokenizer: `parseDataMatrix`
(first variant) and `getParsedDataMatrix` (second variant, the one shipped
in `dist/index.js`).  Strings are modelled as `List Char`; a JavaScript
`NaN` produced by `parseInt` on a non-digit is modelled as `none` in
`Option Nat`; a rejected promise is modelled as `Except.error`.
-/

namespace VueCodeParser

/-- An entry of the static GS1 Application Identifier table `CODE_PARTS`. -/
structure CodePart where
  name : List Char
  description : List Char
  code : List Char
  length : Option Nat
deriving DecidableEq

/-- A tokenized field (interface `ParsedCodePart` in the source). -/
structure ParsedCodePart where
  code : List Char
  value : List Char
  name : List Char
  description : List Char
deriving DecidableEq

/-- The result union type `ParsedResult = string | ParsedCodePart[] | null`. -/
inductive ParsedResult where
  | str : List Char → ParsedResult
  | parts : List ParsedCodePart → ParsedResult
  | null : ParsedResult
deriving DecidableEq

instance {ε α : Type} [DecidableEq ε] [DecidableEq α] : DecidableEq (Except ε α) := fun a b =>
  match a, b with
  | .ok x, .ok y =>
    if h : x = y then .isTrue (by rw [h]) else .isFalse (fun hh => h (Except.ok.inj hh))
  | .error x, .error y =>
    if h : x = y then .isTrue (by rw [h]) else .isFalse (fun hh => h (Except.error.inj hh))
  | .ok _, .error _ => .isFalse (fun hh => Except.noConfusion hh)
  | .error _, .ok _ => .isFalse (fun hh => Except.noConfusion hh)

/-- JavaScript `parseInt` applied to a single character; `none` models `NaN`. -/
def jsParseIntChar (c : Char) : Option Nat :=
  if c.isDigit then some (c.toNat - 48) else none

/-- JavaScript strict equality between two possibly-NaN numbers:
`NaN === x` is false for every `x`, including `x = NaN`. -/
def nanEq : Option Nat → Option Nat → Bool
  | some a, some b => a == b
  | _, _ => false

/-- The summation loop of `calculateCheckDigit`, carrying the running index;
the result is `none` as soon as one character fails to parse (NaN poisoning). -/
def sumDigits : List Char → Nat → Option Nat
  | [], _ => some 0
  | c :: cs, i =>
    match jsParseIntChar c, sumDigits cs (i + 1) with
    | some d, some rest => some (d * (if i % 2 = 0 then 1 else 3) + rest)
    | _, _ => none

/-- Source `calculateCheckDigit`: weighted mod-10 sum, weights 1,3,1,3,... -/
def calculateCheckDigit (code : List Char) : Option Nat :=
  (sumDigits code 0).map (fun s => (10 - s % 10) % 10)

/-- Spec-level value of a decimal digit character. -/
def digitVal (c : Char) : Nat := c.toNat - 48

/-- Spec-level weight: alternates 1,3,1,3,... starting at weight 1 for index 0. -/
def specWeight (i : Nat) : Nat := if i % 2 = 0 then 1 else 3

/-- Spec-level weighted sum of a digit string (sum of digit times weight). -/
def specSum (d : List Char) : Nat :=
  (d.enum.map (fun p => digitVal p.2 * specWeight p.1)).sum

/-- The decimal character for a digit value. -/
def digitChar (k : Nat) : Char := Char.ofNat (48 + k)

def DATAMATRIX_FNC1 : List (List Char) :=
  ["]C1".data, "]e0".data, "]d1".data, "]d2".data, "]q3".data]

def QR_FNC1 : List (List Char) :=
  ["]Q1".data, "]Q2".data, "]Q3".data, "]Q4".data]

def EAN_FNC1 : List (List Char) := ["]E0".data]

def isValidEan13 (code : List Char) : Bool :=
  if !(EAN_FNC1.contains (code.take 3)) then false
  else
    let c := code.drop 3
    if c.length != 13 then false
    else nanEq (calculateCheckDigit (c.take 12)) ((c.get? 12).bind jsParseIntChar)

def isValidEan14 (code : List Char) : Bool :=
  if !(EAN_FNC1.contains (code.take 3)) then false
  else
    let c := code.drop 3
    if c.length != 14 then false
    else nanEq (calculateCheckDigit (c.take 13)) ((c.get? 13).bind jsParseIntChar)

def isValidDataMatrix (code : List Char) : Bool :=
  DATAMATRIX_FNC1.contains (code.take 3)

def detectType (code : List Char) : Option String :=
  if isValidEan13 code then some "EAN-13"
  else if isValidEan14 code then some "EAN-14"
  else if isValidDataMatrix code then some "DataMatrix"
  else if "]Q".data.isPrefixOf code then some "QR"
  else none

def CODE_PARTS : List CodePart := [
  { name := "Global Trade Item Number".data, description := "GTIN".data,
    code := "01".data, length := some 16 },
  { name := "Batch or lot number".data, description := "LOTE".data,
    code := "10".data, length := none },
  { name := "Production date (YYMMDD)".data, description := "FECHA DE PRODUCCIÓN".data,
    code := "11".data, length := some 8 },
  { name := "Expiration date (YYMMDD)".data, description := "FECHA DE CACUCIDAD".data,
    code := "17".data, length := some 8 },
  { name := "Serial number".data, description := "SERIAL".data,
    code := "21".data, length := none },
  { name := "National product code".data, description := "NPC".data,
    code := "712".data, length := none } ]

def indexOfFromAux (c : Char) : List Char → Nat → Option Nat
  | [], _ => none
  | x :: xs, i => if x = c then some i else indexOfFromAux c xs (i + 1)

/-- JavaScript `String.prototype.indexOf(c, start)`, with `none` standing
for the sentinel `-1`. -/
def indexOfFrom (c : Char) (s : List Char) (start : Nat) : Option Nat :=
  indexOfFromAux c (s.drop start) start

/-- JavaScript `String.prototype.slice(a, b)` for non-negative clamped bounds. -/
def jsSlice (s : List Char) (a b : Nat) : List Char :=
  (s.drop a).take (b - a)

/-- JavaScript `value.replace` of the pattern "one trailing plus sign". -/
def stripTrailingPlus (s : List Char) : List Char :=
  if s.getLast? = some '+' then s.dropLast else s

/-- The `for (const part of CODE_PARTS) if (string.startsWith(part.code))`
search that both tokenizers begin each iteration with. -/
def aiFind (s : List Char) : Option CodePart :=
  CODE_PARTS.find? (fun p => p.code.isPrefixOf s)

/-- One iteration of the `getParsedDataMatrix` while loop (second variant):
the emitted field together with the consumed span `length`. -/
def tokenStep (s : List Char) : ParsedCodePart × Nat :=
  match aiFind s with
  | some part =>
    let codeLength := part.code.length
    let length :=
      match part.length with
      | none =>
        match indexOfFrom '+' s codeLength with
        | none => s.length
        | some nextPlus => nextPlus + 1
      | some n => codeLength + n - part.code.length
    ({ code := part.code, value := stripTrailingPlus (jsSlice s codeLength length),
       name := part.name, description := part.description }, length)
  | none =>
    let unknownCode := jsSlice s 0 2
    let length :=
      match indexOfFrom '+' s 2 with
      | none => s.length
      | some nextPlus => nextPlus + 1
    ({ code := unknownCode, value := stripTrailingPlus (jsSlice s 2 length),
       name := "Unknown".data, description := "Unknown".data }, length)

/-- The while loop of `getParsedDataMatrix`.  The loop guard is
`string.length > 0 && iteration++ < maxIterations`: the counter is
post-incremented only when the string is still non-empty, exactly as the
short-circuiting source condition does.  `fuel` is `1000 - iteration`,
which makes the recursion structural.  Returns the accumulated fields,
the final value of `iteration`, and the remaining string. -/
def dmLoopAux (fuel : Nat) (s : List Char) (iteration : Nat)
    (acc : List ParsedCodePart) : List ParsedCodePart × Nat × List Char :=
  if 0 < s.length then
    match fuel with
    | 0 => (acc, iteration + 1, s)
    | fuel' + 1 =>
      dmLoopAux fuel' (s.drop (tokenStep s).2) (iteration + 1) (acc ++ [(tokenStep s).1])
  else (acc, iteration, s)

/-- Source `getParsedDataMatrix` (second variant): strip the 3-character
reader marker, run the loop with `maxIterations = 1000`, and throw when the
final counter reached the bound. -/
def getParsedDataMatrix (code : List Char) : Except String (List ParsedCodePart) :=
  let r := dmLoopAux 1000 (code.drop 3) 0 []
  if 1000 ≤ r.2.1 then Except.error "Maximum iteration limit reached."
  else Except.ok r.1

/-- One iteration of the `parseDataMatrix` while loop (first variant).
The intermediate `length` variable can hold the JavaScript sentinel `-1`,
so it is modelled as an `Int`. -/
def tokenStep0 (str : List Char) : ParsedCodePart × Nat :=
  match aiFind str with
  | some part =>
    let codeLength := part.code.length
    let len0 : Int :=
      match part.length with
      | some n => (n : Int)
      | none =>
        match indexOfFrom '+' str codeLength with
        | some i => (i : Int)
        | none => -1
    let length : Nat := if len0 = -1 then str.length else (len0 + 1).toNat
    let raw := str.take length
    ({ code := raw.take codeLength, value := stripTrailingPlus (raw.drop codeLength),
       name := part.name, description := part.description }, length)
  | none =>
    let len0 : Int :=
      match indexOfFrom '+' str 2 with
      | some i => (i : Int)
      | none => -1
    let length : Nat := if len0 = -1 then str.length else (len0 + 1).toNat
    let raw := str.take length
    ({ code := raw.take 2, value := stripTrailingPlus (raw.drop 2),
       name := "Unknown".data, description := "Unknown".data }, length)

/-- The while loop of `parseDataMatrix` (first variant); same loop shape as
`dmLoopAux`, different step function. -/
def dmLoopAux0 (fuel : Nat) (s : List Char) (iteration : Nat)
    (acc : List ParsedCodePart) : List ParsedCodePart × Nat × List Char :=
  if 0 < s.length then
    match fuel with
    | 0 => (acc, iteration + 1, s)
    | fuel' + 1 =>
      dmLoopAux0 fuel' (s.drop (tokenStep0 s).2) (iteration + 1) (acc ++ [(tokenStep0 s).1])
  else (acc, iteration, s)

/-- Source `parseDataMatrix` (first variant). -/
def parseDataMatrix (code : List Char) : Except String (List ParsedCodePart) :=
  let r := dmLoopAux0 1000 (code.drop 3) 0 []
  if 1000 ≤ r.2.1 then Except.error "Maximum iteration limit reached."
  else Except.ok r.1

/-- Reference (uncapped) tokenization, driven by a structural fuel; since
each step consumes at least one character, `s.length` is always enough fuel. -/
def dmTokensAux : Nat → List Char → List ParsedCodePart
  | 0, _ => []
  | fuel + 1, s =>
    if s = [] then [] else (tokenStep s).1 :: dmTokensAux fuel (s.drop (tokenStep s).2)

/-- The full field sequence of a payload, with no iteration cap. -/
def dmTokens (s : List Char) : List ParsedCodePart := dmTokensAux s.length s

/-- Source `createCodeDataMatrix`: re-resolve each tokenized field against
the AI table by exact code match. -/
def createCodeDataMatrix (parts : List ParsedCodePart) : List ParsedCodePart :=
  parts.map fun part =>
    match CODE_PARTS.find? (fun cp => cp.code == part.code) with
    | some cp => { code := part.code, value := part.value,
                   name := cp.name, description := cp.description }
    | none => { code := part.code, value := part.value,
                name := "Unknown".data, description := "Unknown".data }

/-- JavaScript `String.prototype.replace` with a plain-string pattern and an
empty replacement: remove the first occurrence of `pat`. -/
def removeFirst (pat : List Char) : List Char → List Char
  | [] => []
  | c :: cs => if pat.isPrefixOf (c :: cs) then (c :: cs).drop pat.length
               else c :: removeFirst pat cs

def parseEan13 (code : List Char) : List Char := removeFirst "]E0".data code

def parseEan14 (code : List Char) : List Char := removeFirst "]E0".data code

/-- Source `getParsedCode`: dispatch on the detected symbology. -/
def getParsedCode (code : List Char) : Except String ParsedResult :=
  match detectType code with
  | some "EAN-13" => Except.ok (ParsedResult.str (parseEan13 code))
  | some "EAN-14" => Except.ok (ParsedResult.str (parseEan14 code))
  | some "DataMatrix" =>
    (getParsedDataMatrix code).map (fun ps => ParsedResult.parts (createCodeDataMatrix ps))
  | some "QR" => Except.ok (ParsedResult.str (code.drop 3))
  | _ => Except.ok (ParsedResult.str code)

/-- The JavaScript `String.prototype.trim` white-space set (WhiteSpace and
LineTerminator code points). -/
def isJsWhitespace (c : Char) : Bool :=
  c ∈ ['\t', '\n', '\x0b', '\x0c', '\r', ' ',
       Char.ofNat 0xa0, Char.ofNat 0x1680,
       Char.ofNat 0x2000, Char.ofNat 0x2001, Char.ofNat 0x2002, Char.ofNat 0x2003,
       Char.ofNat 0x2004, Char.ofNat 0x2005, Char.ofNat 0x2006, Char.ofNat 0x2007,
       Char.ofNat 0x2008, Char.ofNat 0x2009, Char.ofNat 0x200a,
       Char.ofNat 0x2028, Char.ofNat 0x2029, Char.ofNat 0x202f,
       Char.ofNat 0x205f, Char.ofNat 0x3000, Char.ofNat 0xfeff]

/-- JavaScript `String.prototype.trim`. -/
def jsTrim (s : List Char) : List Char :=
  ((s.dropWhile isJsWhitespace).reverse.dropWhile isJsWhitespace).reverse

/-- Source `handleParse`: a blank buffer resolves to `null`, otherwise the
buffer is parsed. -/
def handleParse (buffer : List Char) : Except String ParsedResult :=
  if jsTrim buffer = [] then Except.ok ParsedResult.null
  else getParsedCode buffer

/-- Source `handleInput`, with the 300 ms debounce boundary elided: a blank
input is rejected immediately, otherwise the buffer is set to the input and
the parse result (or parse error) is propagated to the caller. -/
def handleInput (newInput : List Char) : Except String ParsedResult :=
  if jsTrim newInput = [] then Except.error "Input inválido"
  else handleParse newInput

/-- The scanned input of the README usage example. -/
def readmeInput : List Char := "]d20112345678901234101725010110ABC123+".data


theorem aiFind_mem {s : List Char} {part : CodePart} (h : aiFind s = some part) :
    part ∈ CODE_PARTS := by
  have h2 : List.find? (fun p => p.code.isPrefixOf s) CODE_PARTS = some part := h
  exact List.mem_of_find?_eq_some h2

theorem aiFind_isPrefixOf {s : List Char} {part : CodePart} (h : aiFind s = some part) :
    part.code.isPrefixOf s = true := by
  have h2 : List.find? (fun p => p.code.isPrefixOf s) CODE_PARTS = some part := h
  simpa using List.find?_some h2

theorem isPrefixOf_iff_take {m l : List Char} :
    m.isPrefixOf l = true ↔ l.take m.length = m := by
  rw [ List.isPrefixOf_iff_prefix]
  constructor
  · rintro ⟨t, rfl⟩
    exact List.take_left m t
  · intro h
    exact h ▸ List.take_prefix m.length l

theorem indexOfFromAux_some {c : Char} :
    ∀ (l : List Char) (i0 j : Nat), indexOfFromAux c l i0 = some j →
      ∃ pre post, l = pre ++ c :: post ∧ j = i0 + pre.length ∧ c ∉ pre := by
  intro l
  induction l with
  | nil => intro i0 j h; simp [indexOfFromAux] at h
  | cons x xs ih =>
    intro i0 j h
    by_cases hx : x = c
    · subst hx
      simp [indexOfFromAux] at h
      exact ⟨[], xs, rfl, by simp [h.symm], by simp⟩
    · rw [indexOfFromAux, if_neg hx] at h
      obtain ⟨pre, post, hl, hj, hmem⟩ := ih (i0 + 1) j h
      refine ⟨x :: pre, post, by rw [hl]; simp, by simp [hj]; omega, ?_⟩
      simp [hmem]
      intro hc; exact hx hc.symm

theorem indexOfFromAux_none {c : Char} :
    ∀ (l : List Char) (i0 : Nat), indexOfFromAux c l i0 = none → c ∉ l := by
  intro l
  induction l with
  | nil => intro i0 _; simp
  | cons x xs ih =>
    intro i0 h
    by_cases hx : x = c
    · subst hx; simp [indexOfFromAux] at h
    · rw [indexOfFromAux, if_neg hx] at h
      simp only [List.mem_cons, not_or]
      exact ⟨fun hh => hx hh.symm, ih (i0 + 1) h⟩

theorem indexOfFrom_some {c : Char} {s : List Char} {start j : Nat}
    (h : indexOfFrom c s start = some j) : start ≤ j := by
  obtain ⟨pre, post, _, hj, _⟩ := indexOfFromAux_some (s.drop start) start j h
  omega

theorem getLast?_mem : ∀ {l : List Char} {a : Char}, l.getLast? = some a → a ∈ l := by
  intro l
  induction l with
  | nil => intro a h; simp at h
  | cons x xs ih =>
    intro a h
    cases xs with
    | nil => simp at h; simp [h]
    | cons y t =>
      rw [List.getLast?_cons_cons] at h
      exact List.mem_cons_of_mem x (ih h)

theorem strip_concat (xs : List Char) : stripTrailingPlus (xs ++ ['+']) = xs := by
  simp [stripTrailingPlus, List.getLast?_concat, List.dropLast_concat]

theorem strip_of_not_mem {xs : List Char} (h : '+' ∉ xs) : stripTrailingPlus xs = xs := by
  unfold stripTrailingPlus
  split
  · next hl => exact absurd (getLast?_mem hl) h
  · rfl


theorem codeParts_facts : ∀ p ∈ CODE_PARTS, p.code ≠ [] ∧ ∀ n, p.length = some n → 1 ≤ n := by
  decide

theorem tokenStep_ZZ (rest : List Char) :
    tokenStep ('Z' :: 'Z' :: '+' :: rest) =
      ({ code := ['Z','Z'], value := [], name := "Unknown".data,
         description := "Unknown".data }, 3) := rfl

theorem tokenStep_pos {s : List Char} (h : s ≠ []) : 1 ≤ (tokenStep s).2 := by
  have hlen : 0 < s.length := List.length_pos.mpr h
  unfold tokenStep
  cases hfind : aiFind s with
  | none =>
    cases hidx : indexOfFrom '+' s 2 with
    | none => simp [hidx]; omega
    | some i => simp [hidx]
  | some part =>
    cases hplen : part.length with
    | none =>
      cases hidx : indexOfFrom '+' s part.code.length with
      | none => simp [hplen, hidx]; omega
      | some i => simp [hplen, hidx]
    | some n =>
      have hn : 1 ≤ n := (codeParts_facts part (aiFind_mem hfind)).2 n hplen
      simp [hplen]
      omega

theorem tokenStep0_pos {s : List Char} (h : s ≠ []) : 1 ≤ (tokenStep0 s).2 := by
  have hlen : 0 < s.length := List.length_pos.mpr h
  unfold tokenStep0
  cases hfind : aiFind s with
  | none =>
    cases hidx : indexOfFrom '+' s 2 with
    | none => simp [hidx]; omega
    | some i =>
      have hne : ((i : Int)) ≠ -1 := by omega
      simp [hidx, hne]
  | some part =>
    cases hplen : part.length with
    | none =>
      cases hidx : indexOfFrom '+' s part.code.length with
      | none => simp [hplen, hidx]; omega
      | some i =>
        have hne : ((i : Int)) ≠ -1 := by omega
        simp [hplen, hidx, hne]
    | some n =>
      have hne : ((n : Int)) ≠ -1 := by omega
      simp [hplen, hne]


theorem dmLoopAux_empty (fuel it : Nat) (acc : List ParsedCodePart) :
    dmLoopAux fuel [] it acc = (acc, it, []) := by
  unfold dmLoopAux
  simp

theorem dmLoopAux_zero {s : List Char} (h : s ≠ []) (it : Nat) (acc : List ParsedCodePart) :
    dmLoopAux 0 s it acc = (acc, it + 1, s) := by
  unfold dmLoopAux
  rw [if_pos (List.length_pos.mpr h)]

theorem dmLoopAux_succ (fuel : Nat) {s : List Char} (h : s ≠ []) (it : Nat)
    (acc : List ParsedCodePart) :
    dmLoopAux (fuel + 1) s it acc =
      dmLoopAux fuel (s.drop (tokenStep s).2) (it + 1) (acc ++ [(tokenStep s).1]) := by
  conv_lhs => unfold dmLoopAux
  rw [if_pos (List.length_pos.mpr h)]

theorem dmLoopAux0_empty (fuel it : Nat) (acc : List ParsedCodePart) :
    dmLoopAux0 fuel [] it acc = (acc, it, []) := by
  unfold dmLoopAux0
  simp

theorem dmTokensAux_irrel : ∀ (f1 f2 : Nat) (s : List Char),
    s.length ≤ f1 → s.length ≤ f2 → dmTokensAux f1 s = dmTokensAux f2 s := by
  intro f1
  induction f1 with
  | zero =>
    intro f2 s h1 h2
    have hs : s = [] := by
      cases s with
      | nil => rfl
      | cons a t => simp at h1
    subst hs
    cases f2 <;> simp [dmTokensAux]
  | succ f1 ih =>
    intro f2 s h1 h2
    by_cases hs : s = []
    · subst hs
      cases f2 <;> simp [dmTokensAux]
    · have hpos : 0 < s.length := List.length_pos.mpr hs
      cases f2 with
      | zero => omega
      | succ f2 =>
        simp only [dmTokensAux, if_neg hs]
        have hstep := tokenStep_pos hs
        have hd : (s.drop (tokenStep s).2).length ≤ f1 := by
          rw [List.length_drop]
          omega
        have hd2 : (s.drop (tokenStep s).2).length ≤ f2 := by
          rw [List.length_drop]
          omega
        rw [ih f2 _ hd hd2]

theorem dmTokens_nil : dmTokens [] = [] := rfl

theorem dmTokens_cons {s : List Char} (h : s ≠ []) :
    dmTokens s = (tokenStep s).1 :: dmTokens (s.drop (tokenStep s).2) := by
  have hpos : 0 < s.length := List.length_pos.mpr h
  unfold dmTokens
  cases hL : s.length with
  | zero => omega
  | succ m =>
    simp only [dmTokensAux, if_neg h]
    have hstep := tokenStep_pos h
    have hd : (s.drop (tokenStep s).2).length ≤ m := by
      rw [List.length_drop]
      omega
    rw [dmTokensAux_irrel m _ _ hd (le_refl _)]

theorem dmTokens_eq_nil_iff {s : List Char} : dmTokens s = [] ↔ s = [] := by
  constructor
  · intro h
    by_contra hs
    rw [dmTokens_cons hs] at h
    simp at h
  · intro h
    subst h
    rfl

theorem dmTokens_length_le : ∀ (n : Nat) (s : List Char), s.length ≤ n →
    (dmTokens s).length ≤ s.length := by
  intro n
  induction n with
  | zero =>
    intro s h
    have hs : s = [] := by
      cases s with
      | nil => rfl
      | cons a t => simp at h
    simp [hs, dmTokens_nil]
  | succ n ih =>
    intro s h
    by_cases hs : s = []
    · simp [hs, dmTokens_nil]
    · rw [dmTokens_cons hs]
      have hstep := tokenStep_pos hs
      have hpos : 0 < s.length := List.length_pos.mpr hs
      have hd : (s.drop (tokenStep s).2).length ≤ n := by
        rw [List.length_drop]
        omega
      have := ih _ hd
      rw [List.length_drop] at this
      simp only [List.length_cons]
      omega

theorem dmLoopAux_complete : ∀ (fuel : Nat) (s : List Char) (it : Nat)
    (acc : List ParsedCodePart), (dmTokens s).length ≤ fuel →
    dmLoopAux fuel s it acc = (acc ++ dmTokens s, it + (dmTokens s).length, []) := by
  intro fuel
  induction fuel with
  | zero =>
    intro s it acc h
    have hs : s = [] := by
      have : dmTokens s = [] := by
        cases hd : dmTokens s with
        | nil => rfl
        | cons a t => rw [hd] at h; simp at h
      exact dmTokens_eq_nil_iff.mp this
    subst hs
    simp [dmLoopAux_empty, dmTokens_nil]
  | succ fuel ih =>
    intro s it acc h
    by_cases hs : s = []
    · subst hs
      simp [dmLoopAux_empty, dmTokens_nil]
    · rw [dmLoopAux_succ fuel hs, dmTokens_cons hs]
      rw [dmTokens_cons hs] at h
      simp only [List.length_cons] at h
      rw [ih _ (it + 1) _ (by omega)]
      simp only [List.length_cons, Prod.mk.injEq]
      exact ⟨by simp, by omega, trivial⟩

theorem dmLoopAux_overflow : ∀ (fuel : Nat) (s : List Char) (it : Nat)
    (acc : List ParsedCodePart), fuel < (dmTokens s).length →
    (dmLoopAux fuel s it acc).2.1 = it + fuel + 1 ∧ (dmLoopAux fuel s it acc).2.2 ≠ [] := by
  intro fuel
  induction fuel with
  | zero =>
    intro s it acc h
    have hs : s ≠ [] := by
      intro hs
      rw [dmTokens_eq_nil_iff.mpr hs] at h
      simp at h
    rw [dmLoopAux_zero hs]
    exact ⟨rfl, hs⟩
  | succ fuel ih =>
    intro s it acc h
    have hs : s ≠ [] := by
      intro hs
      rw [dmTokens_eq_nil_iff.mpr hs] at h
      simp at h
    rw [dmLoopAux_succ fuel hs]
    rw [dmTokens_cons hs] at h
    simp only [List.length_cons] at h
    obtain ⟨h1, h2⟩ := ih (s.drop (tokenStep s).2) (it + 1) (acc ++ [(tokenStep s).1]) (by omega)
    exact ⟨by rw [h1]; omega, h2⟩

theorem getParsedDataMatrix_error_iff (code : List Char) :
    getParsedDataMatrix code = Except.error "Maximum iteration limit reached." ↔
      1000 ≤ (dmTokens (code.drop 3)).length := by
  have hgp : getParsedDataMatrix code =
      if 1000 ≤ (dmLoopAux 1000 (code.drop 3) 0 []).2.1
      then Except.error "Maximum iteration limit reached."
      else Except.ok (dmLoopAux 1000 (code.drop 3) 0 []).1 := rfl
  rw [hgp]
  by_cases h : (dmTokens (code.drop 3)).length ≤ 1000
  · rw [dmLoopAux_complete 1000 _ 0 [] h]
    simp only [List.nil_append, Nat.zero_add]
    by_cases h2 : 1000 ≤ (dmTokens (code.drop 3)).length
    · rw [if_pos h2]
      simp [h2]
    · rw [if_neg h2]
      simp [h2]
  · obtain ⟨h1, _⟩ := dmLoopAux_overflow 1000 (code.drop 3) 0 [] (by omega)
    rw [h1]
    norm_num
    omega

theorem getParsedDataMatrix_ok {code : List Char}
    (h : (dmTokens (code.drop 3)).length ≤ 999) :
    getParsedDataMatrix code = Except.ok (dmTokens (code.drop 3)) := by
  have hgp : getParsedDataMatrix code =
      if 1000 ≤ (dmLoopAux 1000 (code.drop 3) 0 []).2.1
      then Except.error "Maximum iteration limit reached."
      else Except.ok (dmLoopAux 1000 (code.drop 3) 0 []).1 := rfl
  rw [hgp]
  rw [dmLoopAux_complete 1000 _ 0 [] (by omega)]
  simp only [List.nil_append, Nat.zero_add]
  rw [if_neg (by omega)]


theorem dmTokens_zz : ∀ (n : Nat),
    dmTokens ((List.replicate n ['Z', 'Z', '+']).flatten) =
      List.replicate n { code := ['Z', 'Z'], value := [], name := "Unknown".data,
                         description := "Unknown".data } := by
  intro n
  induction n with
  | zero => simp [dmTokens_nil]
  | succ n ih =>
    rw [List.replicate_succ, List.flatten_cons]
    have hne : ('Z' :: 'Z' :: '+' :: (List.replicate n ['Z', 'Z', '+']).flatten) ≠ [] := by
      simp
    rw [show ['Z', 'Z', '+'] ++ (List.replicate n ['Z', 'Z', '+']).flatten =
        'Z' :: 'Z' :: '+' :: (List.replicate n ['Z', 'Z', '+']).flatten from rfl]
    rw [dmTokens_cons hne, tokenStep_ZZ]
    simp only [List.drop_succ_cons, List.drop_zero]
    rw [ih, List.replicate_succ]


/-- Claim C2 (counterexample): the payload made of 1000 copies of "ZZ+" is
fully consumed by the tokenization loop in exactly 1000 iterations — the
final loop state has an empty remaining string and iteration counter 1000,
so the loop never exceeded 1000 iterations — and yet `getParsedDataMatrix`
raises the fatal "Maximum iteration limit reached." error instead of
returning the field sequence normally. -/
theorem iteration_limit_spurious_at_1000 :
    (dmLoopAux 1000 ((List.replicate 1000 ['Z', 'Z', '+']).flatten) 0 []).2 = (1000, []) ∧
    getParsedDataMatrix (']' :: 'd' :: '2' :: (List.replicate 1000 ['Z', 'Z', '+']).flatten) =
      Except.error "Maximum iteration limit reached." := by
  have hlen : (dmTokens ((List.replicate 1000 ['Z', 'Z', '+']).flatten)).length = 1000 := by
    rw [dmTokens_zz, List.length_replicate]
  constructor
  · rw [dmLoopAux_complete 1000 _ 0 [] (by omega)]
    rw [hlen]
  · rw [getParsedDataMatrix_error_iff]
    simp only [List.drop_succ_cons, List.drop_zero]
    omega

/-- Claim C2 (amended): the tokenizer raises the fatal
"Maximum iteration limit reached." error exactly when the payload decomposes
into at least 1000 fields (equivalently, when the loop's iteration counter
reaches the 1000 bound, which already happens for a payload fully consumed
in exactly 1000 iterations); any payload fully consumed within at most 999
iterations returns its field sequence normally without that error. -/
theorem tokenization_limit_iff (code : List Char) :
    (getParsedDataMatrix code = Except.error "Maximum iteration limit reached." ↔
      1000 ≤ (dmTokens (code.drop 3)).length) ∧
    ((dmTokens (code.drop 3)).length ≤ 999 →
      getParsedDataMatrix code = Except.ok (dmTokens (code.drop 3))) :=
  ⟨getParsedDataMatrix_error_iff code, fun h => getParsedDataMatrix_ok h⟩

theorem tokenization_limit_iff_witness :
    getParsedDataMatrix "]d2ZZ+".data = Except.ok (dmTokens ("]d2ZZ+".data.drop 3)) :=
  (tokenization_limit_iff "]d2ZZ+".data).2 (by decide)

/-- Claim C9: in every branch of the tokenizer loop the consumed span is at
least one character whenever the remaining string is non-empty (in both
implementations), so the remaining string strictly shrinks each iteration;
the uncapped tokenization therefore terminates with at most `s.length`
fields for every input string; and the iteration cap error can only occur
for payloads that decompose into at least 1000 fields. -/
theorem tokenizer_progress_and_termination :
    (∀ s : List Char, s ≠ [] →
      1 ≤ (tokenStep s).2 ∧ 1 ≤ (tokenStep0 s).2 ∧
      (s.drop (tokenStep s).2).length < s.length) ∧
    (∀ s : List Char, (dmTokens s).length ≤ s.length) ∧
    (∀ code : List Char,
      getParsedDataMatrix code = Except.error "Maximum iteration limit reached." →
      1000 ≤ (dmTokens (code.drop 3)).length) := by
  refine ⟨fun s hs => ⟨tokenStep_pos hs, tokenStep0_pos hs, ?_⟩,
          fun s => dmTokens_length_le s.length s (le_refl _),
          fun code h => (getParsedDataMatrix_error_iff code).mp h⟩
  have h1 := tokenStep_pos hs
  have h2 : 0 < s.length := List.length_pos.mpr hs
  rw [List.length_drop]
  omega

theorem tokenizer_progress_and_termination_witness :
    1 ≤ (tokenStep ['Z']).2 ∧ 1 ≤ (tokenStep0 ['Z']).2 :=
  ⟨(tokenizer_progress_and_termination.1 ['Z'] (by decide)).1,
   (tokenizer_progress_and_termination.1 ['Z'] (by decide)).2.1⟩


/-- Claim C1 (actual behaviour at the README example input): the detector
returns "DataMatrix", but the full parse returns exactly two fields, not the
three documented in the README: after the fixed-16 GTIN field, the variable
length lot AI "10" greedily consumes "1725010110ABC123+" up to the trailing
separator. -/
theorem readme_example_actual_parse :
    detectType readmeInput = some "DataMatrix" ∧
    getParsedCode readmeInput = Except.ok (ParsedResult.parts
      [{ code := "01".data, value := "12345678901234".data,
         name := "Global Trade Item Number".data, description := "GTIN".data },
       { code := "10".data, value := "1725010110ABC123".data,
         name := "Batch or lot number".data, description := "LOTE".data }]) := ⟨rfl, rfl⟩

/-- Claim C10 (counterexample): the two tokenizer implementations disagree
on the README input (the first variant consumes 17 characters for the
fixed-16 GTIN AI, the second consumes 16). -/
theorem parseDataMatrix_ne_on_readme :
    parseDataMatrix readmeInput ≠ getParsedDataMatrix readmeInput := by decide

/-- Claim C10 (amended): the per-iteration step functions of the two
tokenizer implementations agree whenever the matched table entry is
variable-length or no table entry matches; on a fixed-length AI of declared
length n the first variant consumes exactly one character more than the
second (n + 1 versus n), so the two implementations are not extensionally
equal. -/
theorem tokenStep_agreement (s : List Char) :
    (aiFind s = none → tokenStep0 s = tokenStep s) ∧
    (∀ part, aiFind s = some part → part.length = none → tokenStep0 s = tokenStep s) ∧
    (∀ part n, aiFind s = some part → part.length = some n →
      (tokenStep0 s).2 = (tokenStep s).2 + 1) := by
  refine ⟨?_, ?_, ?_⟩
  · intro hfind
    unfold tokenStep tokenStep0
    rw [hfind]
    cases hidx : indexOfFrom '+' s 2 with
    | none =>
      simp only [hidx, jsSlice, ite_true, if_true]
      have h1 : (s.take s.length).take 2 = (s.drop 0).take (2 - 0) := by
        rw [List.take_length, List.drop_zero]
      have h2 : (s.take s.length).drop 2 = (s.drop 2).take (s.length - 2) := by
        rw [List.take_length]
        rw [← List.length_drop 2 s, List.take_length]
      rw [h1, h2]
    | some i =>
      have hge : 2 ≤ i := indexOfFrom_some hidx
      have hne : ((i : Int)) ≠ -1 := by omega
      simp only [hidx, hne, if_false, jsSlice, if_neg hne]
      have htn : ((i : Int) + 1).toNat = i + 1 := by omega
      rw [htn]
      have h1 : (s.take (i + 1)).take 2 = (s.drop 0).take (2 - 0) := by
        rw [List.take_take, List.drop_zero]
        congr 1
        omega
      have h2 : (s.take (i + 1)).drop 2 = (s.drop 2).take (i + 1 - 2) := by
        rw [List.drop_take]
      rw [h1, h2]
  · intro part hfind hplen
    unfold tokenStep tokenStep0
    rw [hfind]
    have hpref : s.take part.code.length = part.code :=
      isPrefixOf_iff_take.mp (aiFind_isPrefixOf hfind)
    have hcl : part.code.length ≤ s.length := by
      have hp := aiFind_isPrefixOf hfind
      rw [ List.isPrefixOf_iff_prefix] at hp
      exact hp.length_le
    cases hidx : indexOfFrom '+' s part.code.length with
    | none =>
      simp only [hplen, hidx, jsSlice, ite_true, if_true]
      have h1 : (s.take s.length).take part.code.length = part.code := by
        rw [List.take_length, hpref]
      have h2 : (s.take s.length).drop part.code.length =
          (s.drop part.code.length).take (s.length - part.code.length) := by
        rw [List.take_length]
        rw [← List.length_drop part.code.length s, List.take_length]
      rw [h1, h2]
    | some i =>
      have hge : part.code.length ≤ i := indexOfFrom_some hidx
      have hne : ((i : Int)) ≠ -1 := by omega
      simp only [hplen, hidx, jsSlice, if_neg hne]
      have htn : ((i : Int) + 1).toNat = i + 1 := by omega
      rw [htn]
      have h1 : (s.take (i + 1)).take part.code.length = part.code := by
        rw [List.take_take]
        rw [show min part.code.length (i + 1) = part.code.length by omega]
        exact hpref
      have h2 : (s.take (i + 1)).drop part.code.length =
          (s.drop part.code.length).take (i + 1 - part.code.length) := by
        rw [List.drop_take]
      rw [h1, h2]
  · intro part n hfind hplen
    unfold tokenStep tokenStep0
    rw [hfind]
    have hne : ((n : Int)) ≠ -1 := by omega
    simp only [hplen, if_neg hne]
    omega

theorem tokenStep_agreement_witness :
    tokenStep0 "10AB+C".data = tokenStep "10AB+C".data :=
  (tokenStep_agreement "10AB+C".data).2.1
    { name := "Batch or lot number".data, description := "LOTE".data,
      code := "10".data, length := none } (by decide) rfl


/-- Claim C5: on a known fixed-length AI the consumed span is exactly the
declared `length` (counted from the current position and including the AI
code), the value is the slice after the AI code up to that span with one
trailing separator stripped, and when the remaining input is shorter than
the declared length tokenization does not throw and returns a single field
whose value is truncated to the available input. -/
theorem fixed_length_token_span (s : List Char) (part : CodePart) (n : Nat)
    (hfind : aiFind s = some part) (hplen : part.length = some n) :
    (tokenStep s).2 = n ∧
    (tokenStep s).1.value =
      stripTrailingPlus ((s.drop part.code.length).take (n - part.code.length)) ∧
    (s.length ≤ n →
      (tokenStep s).1.value = stripTrailingPlus (s.drop part.code.length) ∧
      getParsedDataMatrix (']' :: 'd' :: '2' :: s) = Except.ok [(tokenStep s).1]) := by
  have hstep : tokenStep s =
      ({ code := part.code,
         value := stripTrailingPlus ((s.drop part.code.length).take (n - part.code.length)),
         name := part.name, description := part.description }, n) := by
    unfold tokenStep
    rw [hfind]
    simp only [hplen]
    rw [show part.code.length + n - part.code.length = n from by omega]
    rfl
  have hne : s ≠ [] := by
    intro hnil
    have hcne := (codeParts_facts part (aiFind_mem hfind)).1
    have hpref : s.take part.code.length = part.code :=
      isPrefixOf_iff_take.mp (aiFind_isPrefixOf hfind)
    rw [hnil] at hpref
    simp at hpref
    exact hcne hpref
  refine ⟨by rw [hstep], by rw [hstep], fun hlen => ⟨?_, ?_⟩⟩
  · rw [hstep]
    simp only
    congr 1
    apply List.take_of_length_le
    rw [List.length_drop]
    omega
  · have hdrop : s.drop (tokenStep s).2 = [] := by
      rw [hstep]
      exact List.drop_eq_nil_of_le hlen
    have htok : dmTokens s = [(tokenStep s).1] := by
      rw [dmTokens_cons hne, hdrop, dmTokens_nil]
    have hpay : ((']' :: 'd' :: '2' :: s).drop 3) = s := rfl
    rw [getParsedDataMatrix_ok (by rw [hpay, htok]; simp), hpay, htok]

theorem fixed_length_token_span_witness :
    (tokenStep "0112345".data).2 = 16 ∧
    getParsedDataMatrix (']' :: 'd' :: '2' :: "0112345".data) =
      Except.ok [(tokenStep "0112345".data).1] :=
  ⟨(fixed_length_token_span "0112345".data
      { name := "Global Trade Item Number".data, description := "GTIN".data,
        code := "01".data, length := some 16 } 16 (by decide) rfl).1,
   ((fixed_length_token_span "0112345".data
      { name := "Global Trade Item Number".data, description := "GTIN".data,
        code := "01".data, length := some 16 } 16 (by decide) rfl).2.2 (by decide)).2⟩

/-- Claim C6: when no AI-table code is a prefix of the remaining string, the
emitted field's code is the first two characters, its name and description
are the literal "Unknown", and its value spans from position 2 up to the
next separator (which is consumed but stripped from the value) or to the
end of the string when there is none. -/
theorem unknown_ai_fallback (s : List Char) (hfind : aiFind s = none) :
    (tokenStep s).1.code = s.take 2 ∧
    (tokenStep s).1.name = "Unknown".data ∧
    (tokenStep s).1.description = "Unknown".data ∧
    (∀ i, indexOfFrom '+' s 2 = some i →
      (tokenStep s).2 = i + 1 ∧ (tokenStep s).1.value = (s.drop 2).take (i - 2)) ∧
    (indexOfFrom '+' s 2 = none →
      (tokenStep s).2 = s.length ∧ (tokenStep s).1.value = s.drop 2) := by
  cases hidx : indexOfFrom '+' s 2 with
  | none =>
    have hstep : tokenStep s =
        ({ code := s.take 2, value := stripTrailingPlus (jsSlice s 2 s.length),
           name := "Unknown".data, description := "Unknown".data }, s.length) := by
      unfold tokenStep
      rw [hfind, hidx]
      simp [jsSlice]
    have hval : stripTrailingPlus (jsSlice s 2 s.length) = s.drop 2 := by
      have hslice : jsSlice s 2 s.length = s.drop 2 := by
        unfold jsSlice
        rw [← List.length_drop 2 s, List.take_length]
      rw [hslice]
      exact strip_of_not_mem (indexOfFromAux_none (s.drop 2) 2 hidx)
    refine ⟨by rw [hstep], by rw [hstep], by rw [hstep], ?_, ?_⟩
    · intro i hi
      exact absurd hi (by simp)
    · intro _
      rw [hstep]
      exact ⟨rfl, hval⟩
  | some i =>
    obtain ⟨pre, post, hdecomp, hi, hpre⟩ := indexOfFromAux_some (s.drop 2) 2 i hidx
    have hstep : tokenStep s =
        ({ code := s.take 2, value := stripTrailingPlus (jsSlice s 2 (i + 1)),
           name := "Unknown".data, description := "Unknown".data }, i + 1) := by
      unfold tokenStep
      rw [hfind, hidx]
      simp [jsSlice]
    have hval : stripTrailingPlus (jsSlice s 2 (i + 1)) = (s.drop 2).take (i - 2) := by
      have hslice : jsSlice s 2 (i + 1) = pre ++ ['+'] := by
        unfold jsSlice
        rw [hdecomp, show i + 1 - 2 = pre.length + 1 from by omega, List.take_append]
        rfl
      have htake : (s.drop 2).take (i - 2) = pre := by
        rw [hdecomp, show i - 2 = pre.length from by omega]
        exact List.take_left pre _
      rw [hslice, strip_concat, htake]
    refine ⟨by rw [hstep], by rw [hstep], by rw [hstep], ?_, ?_⟩
    · intro j hj
      have hij : j = i := by
        injection hj with hj2
        exact hj2.symm
      subst hij
      rw [hstep]
      exact ⟨rfl, hval⟩
    · intro hnone
      exact absurd hnone (by simp)

theorem unknown_ai_fallback_witness :
    (tokenStep "ZZab+cd".data).2 = 5 ∧
    (tokenStep "ZZab+cd".data).1.value = ("ZZab+cd".data.drop 2).take 2 :=
  (unknown_ai_fallback "ZZab+cd".data (by decide)).2.2.2.1 4 (by decide)


theorem dataMatrix_marker_length : ∀ m ∈ DATAMATRIX_FNC1, m.length = 3 := by
  decide

theorem take_length_take (code : List Char) : code.take (code.take 3).length = code.take 3 := by
  rw [List.length_take]
  rcases Nat.le_total 3 code.length with h | h
  · rw [min_eq_left h]
  · rw [min_eq_right h, List.take_length, List.take_of_length_le h]

theorem isValidDataMatrix_iff (code : List Char) :
    isValidDataMatrix code = true ↔ ∃ m ∈ DATAMATRIX_FNC1, m.isPrefixOf code = true := by
  constructor
  · intro h
    unfold isValidDataMatrix at h
    have hmem : code.take 3 ∈ DATAMATRIX_FNC1 := by
      simpa using h
    refine ⟨code.take 3, hmem, ?_⟩
    rw [isPrefixOf_iff_take]
    exact take_length_take code
  · rintro ⟨m, hmem, hpref⟩
    unfold isValidDataMatrix
    have hm3 : m.length = 3 := dataMatrix_marker_length m hmem
    rw [isPrefixOf_iff_take, hm3] at hpref
    rw [← hpref] at hmem
    simpa using hmem

/-- Claim C7: the detector evaluates its checks in fixed order (EAN-13
validation, then EAN-14 validation, then DataMatrix marker-set membership of
the first three characters, then the two-character QR prefix), returns the
first matching kind and nothing else, returns `none` when nothing matches,
and the DataMatrix marker test is equivalent to an exact literal
string-prefix match against the marker set. -/
theorem detectType_first_match (code : List Char) :
    (isValidEan13 code = true → detectType code = some "EAN-13") ∧
    (isValidEan13 code = false → isValidEan14 code = true →
      detectType code = some "EAN-14") ∧
    (isValidEan13 code = false → isValidEan14 code = false →
      isValidDataMatrix code = true → detectType code = some "DataMatrix") ∧
    (isValidEan13 code = false → isValidEan14 code = false →
      isValidDataMatrix code = false → "]Q".data.isPrefixOf code = true →
      detectType code = some "QR") ∧
    (isValidEan13 code = false → isValidEan14 code = false →
      isValidDataMatrix code = false → "]Q".data.isPrefixOf code = false →
      detectType code = none) ∧
    (isValidDataMatrix code = true ↔ ∃ m ∈ DATAMATRIX_FNC1, m.isPrefixOf code = true) := by
  refine ⟨?_, ?_, ?_, ?_, ?_, isValidDataMatrix_iff code⟩
  · intro h1
    unfold detectType
    rw [if_pos h1]
  · intro h1 h2
    unfold detectType
    rw [if_neg (by simp [h1]), if_pos h2]
  · intro h1 h2 h3
    unfold detectType
    rw [if_neg (by simp [h1]), if_neg (by simp [h2]), if_pos h3]
  · intro h1 h2 h3 h4
    unfold detectType
    rw [if_neg (by simp [h1]), if_neg (by simp [h2]), if_neg (by simp [h3]), if_pos h4]
  · intro h1 h2 h3 h4
    unfold detectType
    rw [if_neg (by simp [h1]), if_neg (by simp [h2]), if_neg (by simp [h3]),
        if_neg (by simp [h4])]

theorem detectType_first_match_witness :
    detectType "]d2X".data = some "DataMatrix" :=
  (detectType_first_match "]d2X".data).2.2.1 (by decide) (by decide) (by decide)

/-- Claim C8: the public parse entry point rejects every input that is empty
or consists only of white-space characters, surfacing the rejection to the
caller rather than silently passing the input through. -/
theorem handleInput_rejects_blank (s : List Char) (h : ∀ c ∈ s, isJsWhitespace c = true) :
    handleInput s = Except.error "Input inválido" := by
  have h1 : s.dropWhile isJsWhitespace = [] :=
    List.dropWhile_eq_nil_iff.mpr (fun x hx => by simpa using h x hx)
  have h2 : jsTrim s = [] := by
    unfold jsTrim
    rw [h1]
    simp
  unfold handleInput
  rw [if_pos h2]

theorem handleInput_rejects_blank_witness :
    handleInput [' ', '\t'] = Except.error "Input inválido" :=
  handleInput_rejects_blank [' ', '\t'] (by decide)


theorem jsParseIntChar_isSome_eq {c : Char} (h : (jsParseIntChar c).isSome = true) :
    jsParseIntChar c = some (digitVal c) := by
  unfold jsParseIntChar at *
  by_cases hd : c.isDigit
  · rw [if_pos hd]
    rfl
  · rw [if_neg hd] at h
    simp at h

theorem sumDigits_eq_specSum : ∀ (d : List Char) (i : Nat),
    (∀ c ∈ d, (jsParseIntChar c).isSome = true) →
    sumDigits d i =
      some (((List.enumFrom i d).map (fun p => digitVal p.2 * specWeight p.1)).sum) := by
  intro d
  induction d with
  | nil => intro i _; simp [sumDigits]
  | cons c cs ih =>
    intro i h
    have hc : jsParseIntChar c = some (digitVal c) :=
      jsParseIntChar_isSome_eq (h c (List.mem_cons_self c cs))
    have hcs := ih (i + 1) (fun x hx => h x (List.mem_cons_of_mem c hx))
    unfold sumDigits
    rw [hc, hcs]
    simp only [List.enumFrom_cons, List.map_cons, List.sum_cons]
    rw [show (if i % 2 = 0 then 1 else 3) = specWeight i from rfl]

theorem sumDigits_some_digits : ∀ (d : List Char) (i s : Nat),
    sumDigits d i = some s → ∀ c ∈ d, (jsParseIntChar c).isSome = true := by
  intro d
  induction d with
  | nil => intro i s _ c hc; simp at hc
  | cons x xs ih =>
    intro i s h c hc
    unfold sumDigits at h
    cases hx : jsParseIntChar x with
    | none => rw [hx] at h; simp at h
    | some dx =>
      rw [hx] at h
      cases hxs : sumDigits xs (i + 1) with
      | none => rw [hxs] at h; simp at h
      | some rest =>
        rcases List.mem_cons.mp hc with hcx | hcxs
        · subst hcx
          rw [hx]
          rfl
        · exact ih (i + 1) rest hxs c hcxs

theorem calculateCheckDigit_some {d : List Char}
    (hd : ∀ c ∈ d, (jsParseIntChar c).isSome = true) :
    calculateCheckDigit d = some ((10 - specSum d % 10) % 10) := by
  unfold calculateCheckDigit
  rw [sumDigits_eq_specSum d 0 hd]
  rfl

theorem calculateCheckDigit_le9 {d : List Char} {k : Nat}
    (h : calculateCheckDigit d = some k) : k ≤ 9 := by
  unfold calculateCheckDigit at h
  cases hs : sumDigits d 0 with
  | none => rw [hs] at h; simp at h
  | some s =>
    rw [hs] at h
    have hk : (10 - s % 10) % 10 = k := by
      simpa using h
    have hlt : (10 - s % 10) % 10 < 10 := Nat.mod_lt _ (by omega)
    omega

theorem calculateCheckDigit_digits {d : List Char} {k : Nat}
    (h : calculateCheckDigit d = some k) : ∀ c ∈ d, (jsParseIntChar c).isSome = true := by
  unfold calculateCheckDigit at h
  cases hs : sumDigits d 0 with
  | none => rw [hs] at h; simp at h
  | some s => exact sumDigits_some_digits d 0 s hs

theorem digitChar_parse {k : Nat} (h : k ≤ 9) : jsParseIntChar (digitChar k) = some k := by
  interval_cases k <;> decide

/-- Claim C4: on every all-digit string the check digit computation equals
the GS1 mod-10 formula (10 minus (weighted sum mod 10)) mod 10 with weights
alternating 1,3,1,3,... from index 0 — in particular a weighted sum that is
a multiple of 10 maps to check digit 0 — and every value it ever returns
lies in the range 0 to 9.  As a Lean function it is deterministic and pure
by construction. -/
theorem calculateCheckDigit_spec (d : List Char)
    (hd : ∀ c ∈ d, (jsParseIntChar c).isSome = true) :
    calculateCheckDigit d = some ((10 - specSum d % 10) % 10) ∧
    (∀ k, calculateCheckDigit d = some k → k ≤ 9) :=
  ⟨calculateCheckDigit_some hd, fun _ hk => calculateCheckDigit_le9 hk⟩

theorem calculateCheckDigit_spec_witness :
    calculateCheckDigit "123456789012".data =
      some ((10 - specSum "123456789012".data % 10) % 10) :=
  (calculateCheckDigit_spec "123456789012".data (by decide)).1

theorem nanEq_true_iff {a b : Option Nat} :
    nanEq a b = true ↔ ∃ k, a = some k ∧ b = some k := by
  cases a <;> cases b <;> simp [nanEq]
  exact eq_comm

theorem isValidEan13_eq (x : List Char) :
    isValidEan13 x =
      if x.take 3 = "]E0".data then
        if (x.drop 3).length = 13 then
          nanEq (calculateCheckDigit ((x.drop 3).take 12))
            (((x.drop 3).get? 12).bind jsParseIntChar)
        else false
      else false := by
  unfold isValidEan13
  by_cases hm : x.take 3 = "]E0".data
  · have hc : EAN_FNC1.contains (x.take 3) = true := by simp [EAN_FNC1, hm]
    rw [hc, if_pos hm]
    by_cases hl : (x.drop 3).length = 13
    · simp [hl]
    · simp [hl]
  · have hc : EAN_FNC1.contains (x.take 3) = false := by
      simp [EAN_FNC1]
      exact hm
    rw [hc, if_neg hm]
    simp


/-- Claim C3: `isValidEan13` returns true exactly on strings consisting of
the marker "]E0" followed by 13 characters whose last character is a digit
equal to the computed check digit of the first 12 (which in particular must
all parse as digits for the check digit to be a number); consequently
appending the computed check digit to any 12-digit numeric string yields a
valid EAN-13, and any missing marker, wrong payload length, tampered last
digit, or non-numeric check-digit character makes the function return false
rather than crash. -/
theorem isValidEan13_spec :
    (∀ x : List Char, isValidEan13 x = true ↔
      ∃ d12 c k, x = "]E0".data ++ d12 ++ [c] ∧ d12.length = 12 ∧
        calculateCheckDigit d12 = some k ∧ jsParseIntChar c = some k) ∧
    (∀ d : List Char, d.length = 12 → (∀ ch ∈ d, (jsParseIntChar ch).isSome = true) →
      isValidEan13 ("]E0".data ++ d ++ [digitChar ((calculateCheckDigit d).getD 0)]) = true) := by
  have hmain : ∀ x : List Char, isValidEan13 x = true ↔
      ∃ d12 c k, x = "]E0".data ++ d12 ++ [c] ∧ d12.length = 12 ∧
        calculateCheckDigit d12 = some k ∧ jsParseIntChar c = some k := by
    intro x
    rw [isValidEan13_eq]
    constructor
    · intro h
      by_cases hm : x.take 3 = "]E0".data
      · rw [if_pos hm] at h
        by_cases hl : (x.drop 3).length = 13
        · rw [if_pos hl] at h
          obtain ⟨k, hcalc, hbind⟩ := nanEq_true_iff.mp h
          obtain ⟨c, hget, hparse⟩ := Option.bind_eq_some.mp hbind
          have hd1 : (x.drop 3).drop 12 = [c] := by
            have hlen1 : ((x.drop 3).drop 12).length = 1 := by
              rw [List.length_drop, hl]
            obtain ⟨a, ha⟩ := List.length_eq_one.mp hlen1
            have hget0 : ((x.drop 3).drop 12).get? 0 = (x.drop 3).get? 12 :=
              List.get?_drop (x.drop 3) 12 0
            rw [ha] at hget0
            rw [hget] at hget0
            have hac : a = c := by
              injection hget0.symm with h2
              exact h2.symm
            rw [ha, hac]
          refine ⟨(x.drop 3).take 12, c, k, ?_, ?_, hcalc, hparse⟩
          · conv_lhs => rw [← List.take_append_drop 3 x]
            rw [hm]
            conv_lhs => rw [← List.take_append_drop 12 (x.drop 3)]
            rw [hd1, List.append_assoc]
          · rw [List.length_take, hl]
            omega
        · rw [if_neg hl] at h
          simp at h
      · rw [if_neg hm] at h
        simp at h
    · rintro ⟨d12, c, k, hx, hlen, hcalc, hparse⟩
      have hx2 : x = "]E0".data ++ (d12 ++ [c]) := by
        rw [hx, List.append_assoc]
      have hm : x.take 3 = "]E0".data := by
        rw [hx2]
        exact List.take_left' (by decide)
      have hdrop : x.drop 3 = d12 ++ [c] := by
        rw [hx2]
        exact List.drop_left' (by decide)
      rw [if_pos hm, hdrop]
      rw [if_pos (by simp [hlen])]
      have htake : (d12 ++ [c]).take 12 = d12 := List.take_left' hlen
      have hget : (d12 ++ [c]).get? 12 = some c := by
        rw [← hlen]
        exact List.get?_concat_length d12 c
      rw [htake, hget, hcalc]
      simp [nanEq, hparse]
  refine ⟨hmain, fun d hlen hdig => ?_⟩
  have hcalc : calculateCheckDigit d = some ((10 - specSum d % 10) % 10) :=
    calculateCheckDigit_some hdig
  have hle : (10 - specSum d % 10) % 10 ≤ 9 := calculateCheckDigit_le9 hcalc
  have hgetd : (calculateCheckDigit d).getD 0 = (10 - specSum d % 10) % 10 := by
    rw [hcalc]
    rfl
  rw [(hmain _)]
  exact ⟨d, digitChar ((calculateCheckDigit d).getD 0), (10 - specSum d % 10) % 10,
    rfl, hlen, hcalc, by rw [hgetd]; exact digitChar_parse hle⟩

theorem isValidEan13_spec_witness :
    isValidEan13 ("]E0".data ++ "123456789012".data ++
      [digitChar ((calculateCheckDigit "123456789012".data).getD 0)]) = true :=
  isValidEan13_spec.2 "123456789012".data (by decide) (by decide)

end VueCodeParser
